import Mathlib

/-!
Verification of the YOLO post-processing pipeline

Shallow embedding of the decode-and-suppress pipeline of
`src/utils/image.ts` (post-processing document: `convertToImageCoordinates`,
`nms`, `calculateIoU`, `processDetections`, `processSegmentations`,
`processPoses`) together with the constants of `src/constants/models.ts`
(`NUM_DETECTIONS`, `NUM_CLASSES`, `COCO_CLASSES`, `POSE_KEYPOINTS`).

Modelling conventions:
* JavaScript numbers are modelled as exact rationals (`ℚ`); the algorithms
  under verification only use `+ - * /`, `min`, `max` and comparisons.
* A `Float32Array` output tensor is a `List ℚ`; the pervasive
  `output[k] ?? 0` access is `tensorRead`, i.e. `List.getD _ _ 0`.
* A candidate box pushed into the `boxes : number[][]` array is a
  `List ℚ` (`Box`), accessed with `box?.[k] ?? 0` (`boxGetD`), exactly as
  `nms` and `calculateIoU` do.
* The three parallel arrays `boxes` / `scores` / `classIds` built by one
  decode loop are modelled as one list of candidate records built by
  `List.filterMap` over `List.range NUM_DETECTIONS` (each loop iteration
  pushes at most one aligned element to every array), from which the
  parallel arrays are recovered with `List.map`.
* The stable, score-descending JavaScript
  `sort((a, b) => b.score - a.score)` is `List.insertionSort` with the
  relation "score of the right index ≤ score of the left index", which is
  the stable descending sort.
* `selectedIndices.slice(0, maxDetections)` with a positive
  `maxDetections` is `List.take`.
-/

/-- Constant `NUM_DETECTIONS` of `src/constants/models.ts`: anchor count of the
YOLO11 640×640 output grid. -/
def NUM_DETECTIONS : Nat := 8400

/-- Constant `NUM_CLASSES` of `src/constants/models.ts`. -/
def NUM_CLASSES : Nat := 80

/-- Constant `COCO_CLASSES` of `src/constants/models.ts`: the fixed 80-entry class
table. -/
def COCO_CLASSES : List String :=
  ["person", "bicycle", "car", "motorcycle", "airplane", "bus", "train", "truck",
   "boat", "traffic light", "fire hydrant", "stop sign", "parking meter", "bench",
   "bird", "cat", "dog", "horse", "sheep", "cow", "elephant", "bear", "zebra",
   "giraffe", "backpack", "umbrella", "handbag", "tie", "suitcase", "frisbee",
   "skis", "snowboard", "sports ball", "kite", "baseball bat", "baseball glove",
   "skateboard", "surfboard", "tennis racket", "bottle", "wine glass", "cup",
   "fork", "knife", "spoon", "bowl", "banana", "apple", "sandwich", "orange",
   "broccoli", "carrot", "hot dog", "pizza", "donut", "cake", "chair", "couch",
   "potted plant", "bed", "dining table", "toilet", "tv", "laptop", "mouse",
   "remote", "keyboard", "cell phone", "microwave", "oven", "toaster", "sink",
   "refrigerator", "book", "clock", "vase", "scissors", "teddy bear",
   "hair drier", "toothbrush"]

/-- Constant `POSE_KEYPOINTS` of `src/constants/models.ts`: the fixed 17-entry
skeleton vocabulary, in order. -/
def POSE_KEYPOINTS : List String :=
  ["nose", "left_eye", "right_eye", "left_ear", "right_ear",
   "left_shoulder", "right_shoulder", "left_elbow", "right_elbow",
   "left_wrist", "right_wrist", "left_hip", "right_hip",
   "left_knee", "right_knee", "left_ankle", "right_ankle"]

/-- A raw output tensor: flat numeric buffer. -/
abbrev Tensor := List ℚ

/-- Read `output[k] ?? 0`: an out-of-range read yields the neutral value `0`. -/
def tensorRead (t : Tensor) (k : Nat) : ℚ := t.getD k 0

/-- A candidate box as stored in the `boxes : number[][]` array. -/
abbrev Box := List ℚ

/-- Access `box?.[k] ?? 0`. -/
def boxGetD (b : Box) (k : Nat) : ℚ := b.getD k 0

/-- Per-box area precomputed by `nms`: `(box?.[2] ?? 0) * (box?.[3] ?? 0)`. -/
def boxArea (b : Box) : ℚ := boxGetD b 2 * boxGetD b 3

/-- Function `calculateIoU(box1, box2, area1, area2)` of `src/utils/image.ts`
(lines 669–697): intersection over `area1 + area2 − intersection`, with
the early `0` return when `right <= left || bottom <= top`. -/
def calculateIoU (box1 box2 : Box) (area1 area2 : ℚ) : ℚ :=
  let x1 := boxGetD box1 0
  let y1 := boxGetD box1 1
  let w1 := boxGetD box1 2
  let h1 := boxGetD box1 3
  let x2 := boxGetD box2 0
  let y2 := boxGetD box2 1
  let w2 := boxGetD box2 2
  let h2 := boxGetD box2 3
  let left := max x1 x2
  let top := max y1 y2
  let right := min (x1 + w1) (x2 + w2)
  let bottom := min (y1 + h1) (y2 + h2)
  if right ≤ left ∨ bottom ≤ top then 0
  else
    let intersection := (right - left) * (bottom - top)
    let union := area1 + area2 - intersection
    intersection / union

/-- The survival test of the inner (backward splice) loop of `nms`: a
remaining index `j` survives the just-kept index `cur` unless its box
exists and its IoU with the kept box strictly exceeds the threshold
(`if (iou > iouThreshold) splice`). -/
def nmsKeep (boxes : List Box) (areas : List ℚ) (iouThreshold : ℚ)
    (cur : Nat) (currentBox : Box) (j : Nat) : Bool :=
  match boxes[j]? with
  | none => true
  | some compareBox =>
    decide (calculateIoU currentBox compareBox
      (areas.getD cur 0) (areas.getD j 0) ≤ iouThreshold)

/-- The greedy suppression loop of `nms` (lines 634–661): take the head of
the score-sorted index list, keep it, and (when its box exists) drop every
remaining index whose IoU with the just-kept box strictly exceeds the
threshold.  The backward splice loop over `sortedIndices` is a `filter`. -/
def nmsLoop (boxes : List Box) (areas : List ℚ) (iouThreshold : ℚ) :
    List Nat → List Nat
  | [] => []
  | cur :: rest =>
    match boxes[cur]? with
    | none => cur :: nmsLoop boxes areas iouThreshold rest
    | some currentBox =>
      cur :: nmsLoop boxes areas iouThreshold
        (rest.filter (nmsKeep boxes areas iouThreshold cur currentBox))
termination_by l => l.length
decreasing_by
  · simp
  · simp only [List.length_cons]
    exact Nat.lt_succ_of_le (List.length_filter_le _ _)

/-- Score-descending order on candidate indices: the JavaScript comparator
`(a, b) => b.score - a.score` puts `a` before `b` iff `a`'s score is
larger, keeping the original order on ties (stable sort). -/
def scoreDescOrder (scores : List ℚ) (a b : Nat) : Prop :=
  scores.getD b 0 ≤ scores.getD a 0

instance (scores : List ℚ) : DecidableRel (scoreDescOrder scores) :=
  fun a b => inferInstanceAs (Decidable (scores.getD b 0 ≤ scores.getD a 0))

/-- Function `nms(boxes, scores, iouThreshold)` of `src/utils/image.ts`
(lines 620–664): precompute areas, sort all indices by descending score,
then run the greedy suppression loop. -/
def nms (boxes : List Box) (scores : List ℚ) (iouThreshold : ℚ) : List Nat :=
  let areas := boxes.map boxArea
  let sortedIndices :=
    List.insertionSort (scoreDescOrder scores) (List.range scores.length)
  nmsLoop boxes areas iouThreshold sortedIndices

/-- Record `ProcessedImageData` of `src/utils/image.ts` minus the pixel buffer
(the `data` field is never consulted by post-processing). -/
structure ProcessedImageData where
  originalWidth : ℚ
  originalHeight : ℚ
  processedWidth : ℚ
  processedHeight : ℚ
  scaleX : ℚ
  scaleY : ℚ
  padX : ℚ
  padY : ℚ
deriving DecidableEq, Repr

/-- The `modelType` union `'detection' | 'segmentation' | 'pose'`. -/
inductive ModelType where
  | detection
  | segmentation
  | pose
deriving DecidableEq, Repr

/-- Record `PostProcessOptions` of `src/utils/image.ts` (lines 576–582). -/
structure PostProcessOptions where
  confidenceThreshold : ℚ
  iouThreshold : ℚ
  maxDetections : Nat
  inputShape : List Nat
  modelType : ModelType
deriving DecidableEq, Repr

/-- Result of `convertToImageCoordinates`: the returned
`[clampedX1, clampedY1, boxWidth, boxHeight]` quadruple. -/
structure MappedBox where
  x : ℚ
  y : ℚ
  w : ℚ
  h : ℚ
deriving DecidableEq, Repr

/-- Function `convertToImageCoordinates` of `src/utils/image.ts` (lines 587–615):
center-form to corner-form, each axis scaled by `originalDimension / 640`,
then `x1`/`y1` clamped from below by `0` and `x2`/`y2` clamped from above
by the original dimension. -/
def convertToImageCoordinates (xCenter yCenter width height : ℚ)
    (processedImageData : ProcessedImageData) : MappedBox :=
  let originalWidth := processedImageData.originalWidth
  let originalHeight := processedImageData.originalHeight
  let xRatio := originalWidth / 640
  let yRatio := originalHeight / 640
  let x1 := (xCenter - width / 2) * xRatio
  let y1 := (yCenter - height / 2) * yRatio
  let x2 := (xCenter + width / 2) * xRatio
  let y2 := (yCenter + height / 2) * yRatio
  let clampedX1 := max 0 x1
  let clampedY1 := max 0 y1
  let clampedX2 := min originalWidth x2
  let clampedY2 := min originalHeight y2
  ⟨clampedX1, clampedY1, clampedX2 - clampedX1, clampedY2 - clampedY1⟩

/-- One step of the best-class scan: `if (classScore > maxScore)` update
both the running maximum and the class id. -/
def bestClassStep (f : Nat → ℚ) (acc : ℚ × Nat) (j : Nat) : ℚ × Nat :=
  if acc.1 < f j then (f j, j) else acc

/-- The left-to-right linear scan `let maxScore = 0, bestClassId = 0;
for (j = 0; j < n; j++) ...` over per-channel class scores `f`. -/
def bestClass (f : Nat → ℚ) (n : Nat) : ℚ × Nat :=
  (List.range n).foldl (bestClassStep f) (0, 0)

/-- Class-score read of anchor `i`, channel `j`:
`output[(4 + j) * NUM_DETECTIONS + i] ?? 0`. -/
def classScore (t : Tensor) (i j : Nat) : ℚ :=
  tensorRead t ((4 + j) * NUM_DETECTIONS + i)

/-- A detection candidate: one aligned element of the parallel arrays
`boxes` / `scores` / `classIds` built by `processDetections`. -/
structure DetCand where
  x : ℚ
  y : ℚ
  w : ℚ
  h : ℚ
  score : ℚ
  classId : Nat
deriving DecidableEq, Repr

/-- The box pushed into `boxes` for a candidate. -/
def candBox (c : DetCand) : Box := [c.x, c.y, c.w, c.h]

/-- One iteration of the decode loop of `processDetections`
(lines 717–756): channel-major reads, best-class scan, confidence filter,
raw-size filter, coordinate mapping, minimum-size filter. -/
def decodeAnchor (t : Tensor) (processedImageData : ProcessedImageData)
    (confidenceThreshold : ℚ) (i : Nat) : Option DetCand :=
  let xCenter := tensorRead t (0 * NUM_DETECTIONS + i)
  let yCenter := tensorRead t (1 * NUM_DETECTIONS + i)
  let width := tensorRead t (2 * NUM_DETECTIONS + i)
  let height := tensorRead t (3 * NUM_DETECTIONS + i)
  let best := bestClass (classScore t i) NUM_CLASSES
  if best.1 < confidenceThreshold then none
  else if width ≤ 0 ∨ height ≤ 0 then none
  else
    let m := convertToImageCoordinates xCenter yCenter width height
      processedImageData
    if m.w < 20 ∨ m.h < 20 then none
    else some ⟨m.x, m.y, m.w, m.h, best.1, best.2⟩

/-- Record `Detection` of `src/types` (`class` is renamed `className`: `class` is
a reserved word in Lean). -/
structure Detection where
  bbox : MappedBox
  score : ℚ
  className : String
  classIndex : Nat
deriving DecidableEq, Repr

/-- Function `processDetections(output, processedImageData, options)` of
`src/utils/image.ts` (lines 702–780). -/
def processDetections (output : Tensor)
    (processedImageData : ProcessedImageData)
    (options : PostProcessOptions) : List Detection :=
  let cands := (List.range NUM_DETECTIONS).filterMap
    (decodeAnchor output processedImageData options.confidenceThreshold)
  let boxes := cands.map candBox
  let scores := cands.map DetCand.score
  let selectedIndices := nms boxes scores options.iouThreshold
  (selectedIndices.take options.maxDetections).filterMap fun index =>
    cands[index]?.map fun c =>
      ⟨⟨c.x, c.y, c.w, c.h⟩, c.score,
        COCO_CLASSES.getD c.classId "unknown", c.classId⟩

/-- One RGBA pixel of a synthesized mask buffer. -/
structure Pixel where
  r : Nat
  g : Nat
  b : Nat
  a : Nat
deriving DecidableEq, Repr

/-- Type `ImageData` as consumed by the segmentation result: pixel buffer plus
dimensions. -/
structure MaskImageData where
  data : List Pixel
  width : ℚ
  height : ℚ
deriving DecidableEq, Repr

/-- The placeholder mask fill of `processSegmentations` (lines 870–897):
row-major loop over the original image, painting translucent red inside
the detection's bounding box and transparent elsewhere.  The JavaScript
loops `row < maskHeight` / `col < maskWidth` over integer counters run
`⌈dimension⌉` times (and zero times for non-positive dimensions). -/
def maskFor (originalWidth originalHeight : ℚ) (b : MappedBox) :
    MaskImageData :=
  let data :=
    (List.range (Int.toNat ⌈originalHeight⌉)).flatMap fun row =>
      (List.range (Int.toNat ⌈originalWidth⌉)).map fun col =>
        if (col : ℚ) ≥ b.x ∧ (col : ℚ) < b.x + b.w ∧
            (row : ℚ) ≥ b.y ∧ (row : ℚ) < b.y + b.h then
          (⟨255, 0, 0, 128⟩ : Pixel)
        else
          (⟨0, 0, 0, 0⟩ : Pixel)
  ⟨data, originalWidth, originalHeight⟩

/-- A segmentation candidate: one aligned element of the arrays built by
the decode loop of `processSegmentations` (the class name is resolved
already at decode time there). -/
structure SegCand where
  x : ℚ
  y : ℚ
  w : ℚ
  h : ℚ
  score : ℚ
  className : String
  classIndex : Nat
  maskCoeffs : List ℚ
deriving DecidableEq, Repr

/-- The box pushed into `boxes` for a segmentation candidate. -/
def segCandBox (c : SegCand) : Box := [c.x, c.y, c.w, c.h]

/-- One iteration of the decode loop of `processSegmentations`
(lines 811–858): identical to detection decode plus the 32 mask
coefficients read verbatim from channels 84…115. -/
def decodeSegAnchor (t : Tensor) (processedImageData : ProcessedImageData)
    (confidenceThreshold : ℚ) (i : Nat) : Option SegCand :=
  let xCenter := tensorRead t (0 * NUM_DETECTIONS + i)
  let yCenter := tensorRead t (1 * NUM_DETECTIONS + i)
  let width := tensorRead t (2 * NUM_DETECTIONS + i)
  let height := tensorRead t (3 * NUM_DETECTIONS + i)
  let best := bestClass (classScore t i) NUM_CLASSES
  if best.1 < confidenceThreshold then none
  else if width ≤ 0 ∨ height ≤ 0 then none
  else
    let maskCoeffs := (List.range 32).map fun j =>
      tensorRead t ((84 + j) * NUM_DETECTIONS + i)
    let m := convertToImageCoordinates xCenter yCenter width height
      processedImageData
    if m.w < 20 ∨ m.h < 20 then none
    else some ⟨m.x, m.y, m.w, m.h, best.1,
      COCO_CLASSES.getD best.2 "unknown", best.2, maskCoeffs⟩

/-- Record `Segmentation` of `src/types`: a detection plus its mask. -/
structure Segmentation where
  bbox : MappedBox
  score : ℚ
  className : String
  classIndex : Nat
  mask : MaskImageData
deriving DecidableEq, Repr

/-- Function `processSegmentations(output, maskOutput, processedImageData, options)`
of `src/utils/image.ts` (lines 785–910); the `maskOutput` parameter is
declared but unused (`_maskOutput`). -/
def processSegmentations (output : Tensor) (_maskOutput : Tensor)
    (processedImageData : ProcessedImageData)
    (options : PostProcessOptions) : List Segmentation :=
  let cands := (List.range NUM_DETECTIONS).filterMap
    (decodeSegAnchor output processedImageData options.confidenceThreshold)
  let boxes := cands.map segCandBox
  let scores := cands.map SegCand.score
  let selectedIndices := nms boxes scores options.iouThreshold
  (selectedIndices.take options.maxDetections).filterMap fun index =>
    cands[index]?.map fun c =>
      ⟨⟨c.x, c.y, c.w, c.h⟩, c.score, c.className, c.classIndex,
        maskFor processedImageData.originalWidth
          processedImageData.originalHeight ⟨c.x, c.y, c.w, c.h⟩⟩

/-- Record `Keypoint` of `src/types`. -/
structure Keypoint where
  x : ℚ
  y : ℚ
  confidence : ℚ
  name : String
deriving DecidableEq, Repr

/-- Keypoint `j` of anchor `i` as decoded by `processPoses`
(lines 948–968): three channel-major reads, then simple-ratio scaling
clamped into the original image on both sides. -/
def poseKeypoint (t : Tensor) (processedImageData : ProcessedImageData)
    (i j : Nat) : Keypoint :=
  let keypointX := tensorRead t ((5 + j * 3) * NUM_DETECTIONS + i)
  let keypointY := tensorRead t ((5 + j * 3 + 1) * NUM_DETECTIONS + i)
  let keypointConf := tensorRead t ((5 + j * 3 + 2) * NUM_DETECTIONS + i)
  let originalWidth := processedImageData.originalWidth
  let originalHeight := processedImageData.originalHeight
  let xRatio := originalWidth / 640
  let yRatio := originalHeight / 640
  let originalX := max 0 (min originalWidth (keypointX * xRatio))
  let originalY := max 0 (min originalHeight (keypointY * yRatio))
  ⟨originalX, originalY, keypointConf,
    POSE_KEYPOINTS.getD j ("keypoint_" ++ toString j)⟩

/-- A pose candidate: one aligned element of `boxes` / `scores` /
`candidatePoses` built by the decode loop of `processPoses`. -/
structure PoseCand where
  x : ℚ
  y : ℚ
  w : ℚ
  h : ℚ
  score : ℚ
  keypoints : List Keypoint
deriving DecidableEq, Repr

/-- The box pushed into `boxes` for a pose candidate. -/
def poseCandBox (c : PoseCand) : Box := [c.x, c.y, c.w, c.h]

/-- One iteration of the decode loop of `processPoses` (lines 934–984):
person-confidence filter, raw-size filter, 17 decoded keypoints,
coordinate mapping, minimum-size filter. -/
def decodePoseAnchor (t : Tensor) (processedImageData : ProcessedImageData)
    (confidenceThreshold : ℚ) (i : Nat) : Option PoseCand :=
  let xCenter := tensorRead t (0 * NUM_DETECTIONS + i)
  let yCenter := tensorRead t (1 * NUM_DETECTIONS + i)
  let width := tensorRead t (2 * NUM_DETECTIONS + i)
  let height := tensorRead t (3 * NUM_DETECTIONS + i)
  let personConf := tensorRead t (4 * NUM_DETECTIONS + i)
  if personConf < confidenceThreshold then none
  else if width ≤ 0 ∨ height ≤ 0 then none
  else
    let keypoints := (List.range 17).map (poseKeypoint t processedImageData i)
    let m := convertToImageCoordinates xCenter yCenter width height
      processedImageData
    if m.w < 20 ∨ m.h < 20 then none
    else some ⟨m.x, m.y, m.w, m.h, personConf, keypoints⟩

/-- Record `Pose` of `src/types` (`class` renamed `className`). -/
structure Pose where
  bbox : MappedBox
  score : ℚ
  className : String
  classIndex : Nat
  keypoints : List Keypoint
deriving DecidableEq, Repr

/-- Function `processPoses(output, processedImageData, options)` of
`src/utils/image.ts` (lines 915–1006). -/
def processPoses (output : Tensor)
    (processedImageData : ProcessedImageData)
    (options : PostProcessOptions) : List Pose :=
  let cands := (List.range NUM_DETECTIONS).filterMap
    (decodePoseAnchor output processedImageData options.confidenceThreshold)
  let boxes := cands.map poseCandBox
  let scores := cands.map PoseCand.score
  let selectedIndices := nms boxes scores options.iouThreshold
  (selectedIndices.take options.maxDetections).filterMap fun index =>
    cands[index]?.map fun c =>
      ⟨⟨c.x, c.y, c.w, c.h⟩, c.score, "person", 0, c.keypoints⟩

/-- Zero-padding a tensor to the full detection size `84 * 8400`
(claim C7's "tensor zero-padded to full size"). -/
def zeroPadDetection (t : Tensor) : Tensor :=
  t ++ List.replicate (84 * 8400 - t.length) 0

/-- Geometry context of a 640×640 original image (identity letterbox),
used as the concrete context of the scenario inputs. -/
def ctx640 : ProcessedImageData := ⟨640, 640, 640, 640, 1, 1, 0, 0⟩

/-- Default scenario options: thresholds `0.5`, cap `100`. -/
def opts0 : PostProcessOptions :=
  ⟨mkRat 1 2, mkRat 1 2, 100, [1, 3, 640, 640], ModelType.detection⟩

/-- Options with non-positive thresholds (configuration-error scenario of
claim C8). -/
def optsNeg : PostProcessOptions :=
  ⟨-1, -1, 100, [1, 3, 640, 640], ModelType.detection⟩

/-- Value table of the scenario tensor `t0`: anchor 0 has box
`(cx, cy, w, h) = (320, 320, 100, 100)` and class-0 score `0.9`; every
other value is `0`. -/
def f0 : Nat → ℚ := fun k =>
  if k = 0 then 320
  else if k = 8400 then 320
  else if k = 16800 then 100
  else if k = 25200 then 100
  else if k = 33600 then mkRat 9 10
  else 0

/-- Scenario tensor: one anchor with a real box and class-0 score `0.9`,
all other values `0`. -/
def t0 : Tensor := (List.range 33601).map f0

/-- The tensor of claim C9's scenario: exactly one anchor has class-0
score `0.9` (channel 4 of anchor 0, flat index `4 * 8400 = 33600`) and
every other tensor value is `0`. -/
def tC9 : Tensor := (List.range 33601).map fun k => if k = 33600 then mkRat 9 10 else 0

/-- The detection produced by `t0` under `ctx640` / `opts0`. -/
def det0 : Detection := ⟨⟨270, 270, 100, 100⟩, mkRat 9 10, "person", 0⟩

/-- The keypoints decoded from `t0` (all reads zero → all at the clamped
origin, confidence 0, names from the fixed vocabulary). -/
def kps0 : List Keypoint :=
  (List.range 17).map fun j =>
    ⟨0, 0, 0, POSE_KEYPOINTS.getD j ("keypoint_" ++ toString j)⟩

/-- The pose produced by `t0` under `ctx640` / `opts0`. -/
def pose0 : Pose := ⟨⟨270, 270, 100, 100⟩, mkRat 9 10, "person", 0, kps0⟩

/-- The two-box fixture used to witness the suppression invariant. -/
def boxesW : List Box := [[0, 0, 10, 10], [100, 0, 10, 10]]

/-- Scores of the two-box fixture. -/
def scoresW : List ℚ := [mkRat 9 10, mkRat 4 5]

/-- Conclusion of the (amended) geometry-mapper claim: all four corners of
the returned box lie inside `[0, originalWidth] × [0, originalHeight]` and
the returned width/height are non-negative. -/
def mappedBoxInBounds (p : ProcessedImageData) (m : MappedBox) : Prop :=
  0 ≤ m.x ∧ m.x ≤ p.originalWidth ∧ 0 ≤ m.y ∧ m.y ≤ p.originalHeight ∧
  0 ≤ m.w ∧ 0 ≤ m.h ∧
  m.x + m.w ≤ p.originalWidth ∧ m.y + m.h ≤ p.originalHeight

/-- The decode-filter invariant claimed for every emitted detection:
mapped box at least 20×20, score at least the confidence threshold, and
provenance from an anchor whose raw (pre-mapping) width and height were
strictly positive. -/
def detInvariant (t : Tensor) (ctx : ProcessedImageData)
    (opts : PostProcessOptions) (d : Detection) : Prop :=
  20 ≤ d.bbox.w ∧ 20 ≤ d.bbox.h ∧ opts.confidenceThreshold ≤ d.score ∧
  ∃ i, i < NUM_DETECTIONS ∧
    0 < tensorRead t (2 * NUM_DETECTIONS + i) ∧
    0 < tensorRead t (3 * NUM_DETECTIONS + i) ∧
    decodeAnchor t ctx opts.confidenceThreshold i =
      some ⟨d.bbox.x, d.bbox.y, d.bbox.w, d.bbox.h, d.score, d.classIndex⟩

/-- The keypoint invariant claimed for every emitted pose: exactly 17
keypoints, named by the fixed skeleton vocabulary in order, each clamped
into the original image. -/
def poseInvariant (ctx : ProcessedImageData) (p : Pose) : Prop :=
  p.keypoints.length = 17 ∧
  p.keypoints.map Keypoint.name = POSE_KEYPOINTS ∧
  ∀ k ∈ p.keypoints,
    0 ≤ k.x ∧ k.x ≤ ctx.originalWidth ∧ 0 ≤ k.y ∧ k.y ≤ ctx.originalHeight

/-- All-negative tensor: every one of the `84 * 8400` values is `-1`
(counterexample input for the class-selection claim). -/
def tNeg : Tensor := List.replicate 705600 (-1)

/-- The class-selection claim at anchor `i` of tensor `t`: the scan's
reported score bounds every class score, is attained at the reported
index, the reported index is in range, and every lower channel scores
strictly less (lowest-index tie-breaking). -/
def bestClassCorrect (t : Tensor) (i : Nat) : Prop :=
  (∀ j, j < NUM_CLASSES →
    classScore t i j ≤ (bestClass (classScore t i) NUM_CLASSES).1) ∧
  (bestClass (classScore t i) NUM_CLASSES).2 < NUM_CLASSES ∧
  classScore t i (bestClass (classScore t i) NUM_CLASSES).2 =
    (bestClass (classScore t i) NUM_CLASSES).1 ∧
  (∀ j, j < (bestClass (classScore t i) NUM_CLASSES).2 →
    classScore t i j < (bestClass (classScore t i) NUM_CLASSES).1)

/-- The pairwise-overlap bound claimed for two kept indices: whenever both
indices actually carry boxes, their IoU (with areas `width * height`, as
`nms` precomputes them) is at most the threshold. -/
def keptIoUOK (boxes : List Box) (thr : ℚ) (a b : Nat) : Prop :=
  ∀ boxA boxB, boxes[a]? = some boxA → boxes[b]? = some boxB →
    calculateIoU boxA boxB (boxArea boxA) (boxArea boxB) ≤ thr

/-! ## Lemmas about the suppression loop -/

theorem nmsLoop_nil (boxes : List Box) (areas : List ℚ) (thr : ℚ) :
    nmsLoop boxes areas thr [] = [] := by
  simp [nmsLoop]

theorem nmsLoop_cons_none (boxes : List Box) (areas : List ℚ) (thr : ℚ)
    (cur : Nat) (rest : List Nat) (h : boxes[cur]? = none) :
    nmsLoop boxes areas thr (cur :: rest) =
      cur :: nmsLoop boxes areas thr rest := by
  rw [nmsLoop]
  simp [h]

theorem nmsLoop_cons_some (boxes : List Box) (areas : List ℚ) (thr : ℚ)
    (cur : Nat) (rest : List Nat) (currentBox : Box)
    (h : boxes[cur]? = some currentBox) :
    nmsLoop boxes areas thr (cur :: rest) =
      cur :: nmsLoop boxes areas thr
        (rest.filter (nmsKeep boxes areas thr cur currentBox)) := by
  rw [nmsLoop]
  simp [h]

theorem nmsLoop_sublist (boxes : List Box) (areas : List ℚ) (thr : ℚ)
    (l : List Nat) : (nmsLoop boxes areas thr l).Sublist l := by
  have key : ∀ (n : Nat) (l : List Nat), l.length ≤ n →
      (nmsLoop boxes areas thr l).Sublist l := by
    intro n
    induction n with
    | zero =>
      intro l hl
      obtain rfl : l = [] := List.length_eq_zero.mp (Nat.le_zero.mp hl)
      simp [nmsLoop_nil]
    | succ n ih =>
      intro l hl
      cases l with
      | nil => simp [nmsLoop_nil]
      | cons cur rest =>
        have hrest : rest.length ≤ n := by
          simp only [List.length_cons] at hl
          omega
        cases h : boxes[cur]? with
        | none =>
          rw [nmsLoop_cons_none boxes areas thr cur rest h]
          exact (ih rest hrest).cons₂ cur
        | some currentBox =>
          rw [nmsLoop_cons_some boxes areas thr cur rest currentBox h]
          have h1 := ih (rest.filter (nmsKeep boxes areas thr cur currentBox))
            (le_trans (List.length_filter_le _ _) hrest)
          exact (h1.trans (List.filter_sublist _)).cons₂ cur
  exact key l.length l le_rfl

theorem calculateIoU_comm (b1 b2 : Box) (a1 a2 : ℚ) :
    calculateIoU b1 b2 a1 a2 = calculateIoU b2 b1 a2 a1 := by
  simp only [calculateIoU]
  rw [max_comm (boxGetD b1 0) (boxGetD b2 0),
    max_comm (boxGetD b1 1) (boxGetD b2 1),
    min_comm (boxGetD b1 0 + boxGetD b1 2) (boxGetD b2 0 + boxGetD b2 2),
    min_comm (boxGetD b1 1 + boxGetD b1 3) (boxGetD b2 1 + boxGetD b2 3),
    add_comm a1 a2]

theorem getD_map_of_getElem? {α β : Type} [Inhabited β] (f : α → β)
    (l : List α) (i : Nat) (c : α) (h : l[i]? = some c) (d : β) :
    (l.map f).getD i d = f c := by
  rw [List.getD_eq_getElem?_getD, List.getElem?_map, h]
  rfl

theorem keptIoUOK_symm (boxes : List Box) (thr : ℚ) :
    Symmetric (keptIoUOK boxes thr) := by
  intro a b hab boxB boxA hB hA
  rw [calculateIoU_comm]
  exact hab boxA boxB hA hB

theorem nmsLoop_pairwise_iou (boxes : List Box) (thr : ℚ) (l : List Nat) :
    (nmsLoop boxes (boxes.map boxArea) thr l).Pairwise
      (keptIoUOK boxes thr) := by
  have key : ∀ (n : Nat) (l : List Nat), l.length ≤ n →
      (nmsLoop boxes (boxes.map boxArea) thr l).Pairwise
        (keptIoUOK boxes thr) := by
    intro n
    induction n with
    | zero =>
      intro l hl
      obtain rfl : l = [] := List.length_eq_zero.mp (Nat.le_zero.mp hl)
      simp [nmsLoop_nil]
    | succ n ih =>
      intro l hl
      cases l with
      | nil => simp [nmsLoop_nil]
      | cons cur rest =>
        have hrest : rest.length ≤ n := by
          simp only [List.length_cons] at hl
          omega
        cases h : boxes[cur]? with
        | none =>
          rw [nmsLoop_cons_none boxes _ thr cur rest h]
          refine List.Pairwise.cons ?_ (ih rest hrest)
          intro b _ boxA boxB hA hB
          rw [h] at hA
          exact absurd hA (by simp)
        | some currentBox =>
          rw [nmsLoop_cons_some boxes _ thr cur rest currentBox h]
          refine List.Pairwise.cons ?_
            (ih _ (le_trans (List.length_filter_le _ _) hrest))
          intro b hb boxA boxB hA hB
          have hbf : b ∈ rest.filter
              (nmsKeep boxes (boxes.map boxArea) thr cur currentBox) :=
            (nmsLoop_sublist _ _ _ _).subset hb
          have hkeep := (List.mem_filter.mp hbf).2
          have hAeq : boxA = currentBox := by
            rw [h] at hA
            exact (Option.some.inj hA).symm
          subst hAeq
          rw [nmsKeep, hB] at hkeep
          have hle := of_decide_eq_true hkeep
          rwa [getD_map_of_getElem? boxArea boxes cur boxA h,
            getD_map_of_getElem? boxArea boxes b boxB hB] at hle
  exact key l.length l le_rfl

theorem nms_pairwise_iou (boxes : List Box) (scores : List ℚ) (thr : ℚ) :
    (nms boxes scores thr).Pairwise (keptIoUOK boxes thr) := by
  simp only [nms]
  exact nmsLoop_pairwise_iou boxes thr _

theorem nms_pairwise_scores (boxes : List Box) (scores : List ℚ)
    (thr : ℚ) :
    (nms boxes scores thr).Pairwise (scoreDescOrder scores) := by
  simp only [nms]
  refine List.Pairwise.sublist (nmsLoop_sublist _ _ _ _) ?_
  haveI : IsTotal Nat (scoreDescOrder scores) :=
    ⟨fun a b => le_total (scores.getD b 0) (scores.getD a 0)⟩
  haveI : IsTrans Nat (scoreDescOrder scores) :=
    ⟨fun _ _ _ h1 h2 => le_trans h2 h1⟩
  exact List.sorted_insertionSort _ _

theorem pairwise_filterMap_of {α β : Type} {R : α → α → Prop}
    {S : β → β → Prop} (f : α → Option β)
    (h : ∀ a b x y, R a b → f a = some x → f b = some y → S x y)
    {l : List α} (hl : l.Pairwise R) : (l.filterMap f).Pairwise S := by
  induction hl with
  | nil => simp
  | @cons a l ha _ ih =>
    cases hf : f a with
    | none =>
      rw [List.filterMap_cons_none hf]
      exact ih
    | some x =>
      rw [List.filterMap_cons_some hf]
      refine List.Pairwise.cons ?_ ih
      intro y hy
      obtain ⟨b, hbl, hfb⟩ := List.mem_filterMap.mp hy
      exact h a b x y (ha b hbl) hf hfb

theorem assembled_pairwise {α β : Type} (cands : List α) (bx : α → Box)
    (sc : α → ℚ) (proj : α → β) (ps : β → ℚ)
    (hp : ∀ c, ps (proj c) = sc c) (thr : ℚ) (m : Nat) :
    (((nms (cands.map bx) (cands.map sc) thr).take m).filterMap
        fun index => (cands[index]?).map proj).Pairwise
      fun d e => ps e ≤ ps d := by
  have h1 := nms_pairwise_scores (cands.map bx) (cands.map sc) thr
  have h2 := List.Pairwise.sublist (List.take_sublist m _) h1
  refine pairwise_filterMap_of _ ?_ h2
  intro a b x y hr hfa hfb
  obtain ⟨ca, hca, rfl⟩ := Option.map_eq_some'.mp hfa
  obtain ⟨cb, hcb, rfl⟩ := Option.map_eq_some'.mp hfb
  rw [hp, hp]
  rw [scoreDescOrder, getD_map_of_getElem? sc cands a ca hca,
    getD_map_of_getElem? sc cands b cb hcb] at hr
  exact hr

/-! ## Small-instance evaluations of `nms` (the suppression loop is
defined by well-founded recursion, so concrete runs are computed by
rewriting with the step equations) -/

theorem nms_nil_eval (thr : ℚ) : nms [] [] thr = [] := by
  simp only [nms]
  rw [show List.insertionSort (scoreDescOrder ([] : List ℚ))
      (List.range ([] : List ℚ).length) = [] from rfl]
  exact nmsLoop_nil _ _ _

theorem nms_singleton_eval (b : Box) (s thr : ℚ) : nms [b] [s] thr = [0] := by
  simp only [nms]
  rw [show List.insertionSort (scoreDescOrder [s])
      (List.range [s].length) = [0] from rfl]
  rw [nmsLoop_cons_some _ _ _ 0 [] b rfl]
  simp [nmsLoop_nil]

theorem iou_fixture_zero (a1 a2 : ℚ) :
    calculateIoU [0, 0, 10, 10] [100, 0, 10, 10] a1 a2 = 0 := by
  norm_num [calculateIoU, boxGetD, min_def, max_def]

theorem nms_pair_eval : nms boxesW scoresW (mkRat 1 2) = [0, 1] := by
  simp only [nms]
  have hs : List.insertionSort (scoreDescOrder scoresW)
      (List.range scoresW.length) = [0, 1] := by decide
  rw [hs]
  rw [nmsLoop_cons_some _ _ _ 0 [1] [0, 0, 10, 10] (by decide)]
  have h1 : boxesW[1]? = some [100, 0, 10, 10] := by decide
  have hk : nmsKeep boxesW (boxesW.map boxArea) (mkRat 1 2) 0
      [0, 0, 10, 10] 1 = true := by
    simp only [nmsKeep, h1]
    rw [iou_fixture_zero]
    decide
  have hf : List.filter
      (nmsKeep boxesW (boxesW.map boxArea) (mkRat 1 2) 0 [0, 0, 10, 10]) [1] =
      [1] := by
    simp [List.filter, hk]
  rw [hf]
  rw [nmsLoop_cons_some _ _ _ 1 [] [100, 0, 10, 10] (by decide)]
  simp [nmsLoop_nil]

/-! ## Claim C1: pairwise suppression invariant -/

/-- Claim C1: for every list of boxes, every list of scores and every
`iouThreshold`, any two distinct indices `a`, `b` kept by `nms` have
`IoU(box_a, box_b) ≤ iouThreshold` (areas computed as `width * height`,
exactly as `nms` precomputes them); the bound holds for every pair of kept
boxes, not only consecutive ones. -/
theorem nms_suppression_invariant (boxes : List Box) (scores : List ℚ)
    (iouThreshold : ℚ) (a b : Nat)
    (ha : a ∈ nms boxes scores iouThreshold)
    (hb : b ∈ nms boxes scores iouThreshold) (hab : a ≠ b)
    (boxA boxB : Box) (hA : boxes[a]? = some boxA)
    (hB : boxes[b]? = some boxB) :
    calculateIoU boxA boxB (boxArea boxA) (boxArea boxB) ≤ iouThreshold :=
  ((nms_pairwise_iou boxes scores iouThreshold).forall
    (keptIoUOK_symm boxes iouThreshold) ha hb hab) boxA boxB hA hB

/-- Witness for C1 at a concrete two-box input. -/
theorem nms_suppression_invariant_witness :
    (0 ∈ nms boxesW scoresW (mkRat 1 2) ∧ 1 ∈ nms boxesW scoresW (mkRat 1 2) ∧
      (0 : Nat) ≠ 1 ∧ boxesW[0]? = some [0, 0, 10, 10] ∧
      boxesW[1]? = some [100, 0, 10, 10]) ∧
    calculateIoU [0, 0, 10, 10] [100, 0, 10, 10]
      (boxArea [0, 0, 10, 10]) (boxArea [100, 0, 10, 10]) ≤ mkRat 1 2 := by
  have h0 : 0 ∈ nms boxesW scoresW (mkRat 1 2) := by
    rw [nms_pair_eval]; decide
  have h1 : 1 ∈ nms boxesW scoresW (mkRat 1 2) := by
    rw [nms_pair_eval]; decide
  exact ⟨⟨h0, h1, by decide, by decide, by decide⟩,
    nms_suppression_invariant boxesW scoresW (mkRat 1 2) 0 1 h0 h1
      (by decide) _ _ (by decide) (by decide)⟩

/-! ## Claim C2: non-increasing confidence ordering of assembler output -/

/-- Claim C2: for every tensor, geometry context and options, the score
sequences emitted by `processDetections`, `processSegmentations` and
`processPoses` are non-increasing: suppression emits indices in
descending-score selection order and the assemblers truncate to
`maxDetections` by prefix without re-sorting. -/
theorem assemblers_confidence_ordering (t tm : Tensor)
    (ctx : ProcessedImageData) (opts : PostProcessOptions) :
    ((processDetections t ctx opts).map Detection.score).Pairwise
      (fun a b => b ≤ a) ∧
    ((processSegmentations t tm ctx opts).map Segmentation.score).Pairwise
      (fun a b => b ≤ a) ∧
    ((processPoses t ctx opts).map Pose.score).Pairwise
      (fun a b => b ≤ a) := by
  refine ⟨?_, ?_, ?_⟩
  · rw [List.pairwise_map]
    simp only [processDetections]
    exact assembled_pairwise _ candBox DetCand.score _ Detection.score
      (fun c => rfl) _ _
  · rw [List.pairwise_map]
    simp only [processSegmentations]
    exact assembled_pairwise _ segCandBox SegCand.score _ Segmentation.score
      (fun c => rfl) _ _
  · rw [List.pairwise_map]
    simp only [processPoses]
    exact assembled_pairwise _ poseCandBox PoseCand.score _ Pose.score
      (fun c => rfl) _ _

/-! ## Claim C4: IoU bounds -/

theorem iouArith (x1 y1 w1 h1 x2 y2 w2 h2 : ℚ)
    (h : ¬(min (x1 + w1) (x2 + w2) ≤ max x1 x2 ∨
           min (y1 + h1) (y2 + h2) ≤ max y1 y2)) :
    0 < (min (x1 + w1) (x2 + w2) - max x1 x2) *
        (min (y1 + h1) (y2 + h2) - max y1 y2) ∧
    (min (x1 + w1) (x2 + w2) - max x1 x2) *
        (min (y1 + h1) (y2 + h2) - max y1 y2) ≤ w1 * h1 ∧
    (min (x1 + w1) (x2 + w2) - max x1 x2) *
        (min (y1 + h1) (y2 + h2) - max y1 y2) ≤ w2 * h2 := by
  push_neg at h
  obtain ⟨hx, hy⟩ := h
  have hRx1 := min_le_left (x1 + w1) (x2 + w2)
  have hRx2 := min_le_right (x1 + w1) (x2 + w2)
  have hLx1 := le_max_left x1 x2
  have hLx2 := le_max_right x1 x2
  have hRy1 := min_le_left (y1 + h1) (y2 + h2)
  have hRy2 := min_le_right (y1 + h1) (y2 + h2)
  have hLy1 := le_max_left y1 y2
  have hLy2 := le_max_right y1 y2
  refine ⟨mul_pos (by linarith) (by linarith), ?_, ?_⟩
  · exact mul_le_mul (by linarith) (by linarith) (by linarith) (by linarith)
  · exact mul_le_mul (by linarith) (by linarith) (by linarith) (by linarith)

/-- Claim C4 (amended): for any two boxes with areas `width * height`,
`calculateIoU` is in `[0, 1]`; a box with *strictly positive* width and
height has self-IoU `1`; and non-overlapping boxes
(`right ≤ left` or `bottom ≤ top`) give exactly `0` (the early return, no
division).  The original claim's unconditional "self-IoU = 1" fails for
degenerate boxes, see the counterexample. -/
theorem calculateIoU_bounds (box1 box2 : Box) :
    (0 ≤ calculateIoU box1 box2 (boxArea box1) (boxArea box2) ∧
      calculateIoU box1 box2 (boxArea box1) (boxArea box2) ≤ 1) ∧
    (0 < boxGetD box1 2 → 0 < boxGetD box1 3 →
      calculateIoU box1 box1 (boxArea box1) (boxArea box1) = 1) ∧
    ((min (boxGetD box1 0 + boxGetD box1 2) (boxGetD box2 0 + boxGetD box2 2) ≤
        max (boxGetD box1 0) (boxGetD box2 0) ∨
      min (boxGetD box1 1 + boxGetD box1 3) (boxGetD box2 1 + boxGetD box2 3) ≤
        max (boxGetD box1 1) (boxGetD box2 1)) →
      calculateIoU box1 box2 (boxArea box1) (boxArea box2) = 0) := by
  simp only [calculateIoU, boxArea]
  set x1 := boxGetD box1 0
  set y1 := boxGetD box1 1
  set w1 := boxGetD box1 2
  set h1 := boxGetD box1 3
  set x2 := boxGetD box2 0
  set y2 := boxGetD box2 1
  set w2 := boxGetD box2 2
  set h2 := boxGetD box2 3
  refine ⟨?_, ?_, ?_⟩
  · by_cases h : min (x1 + w1) (x2 + w2) ≤ max x1 x2 ∨
        min (y1 + h1) (y2 + h2) ≤ max y1 y2
    · rw [if_pos h]
      norm_num
    · rw [if_neg h]
      obtain ⟨hpos, hA1, hA2⟩ := iouArith x1 y1 w1 h1 x2 y2 w2 h2 h
      have hu : 0 < w1 * h1 + w2 * h2 -
          (min (x1 + w1) (x2 + w2) - max x1 x2) *
          (min (y1 + h1) (y2 + h2) - max y1 y2) := by linarith
      constructor
      · exact div_nonneg hpos.le hu.le
      · rw [div_le_one hu]
        linarith
  · intro hw hh
    have hc : ¬(min (x1 + w1) (x1 + w1) ≤ max x1 x1 ∨
        min (y1 + h1) (y1 + h1) ≤ max y1 y1) := by
      push_neg
      rw [min_self, max_self, min_self, max_self]
      constructor <;> linarith
    rw [if_neg hc]
    rw [min_self, max_self, min_self, max_self]
    rw [show x1 + w1 - x1 = w1 from by ring, show y1 + h1 - y1 = h1 from by ring]
    rw [show w1 * h1 + w1 * h1 - w1 * h1 = w1 * h1 from by ring]
    exact div_self (mul_pos hw hh).ne'
  · intro h
    rw [if_pos h]

/-- Claim C4 counterexample: the degenerate box `[0, 0, 0, 0]` has self-IoU
`0`, not `1` — the claim's unconditional "IoU of a box with itself
returns 1" is false. -/
theorem calculateIoU_self_cex :
    calculateIoU [0, 0, 0, 0] [0, 0, 0, 0]
      (boxArea [0, 0, 0, 0]) (boxArea [0, 0, 0, 0]) = 0 ∧
    calculateIoU [0, 0, 0, 0] [0, 0, 0, 0]
      (boxArea [0, 0, 0, 0]) (boxArea [0, 0, 0, 0]) ≠ 1 := by
  have h : calculateIoU [0, 0, 0, 0] [0, 0, 0, 0]
      (boxArea [0, 0, 0, 0]) (boxArea [0, 0, 0, 0]) = 0 := by
    norm_num [calculateIoU, boxGetD, min_def, max_def]
  refine ⟨h, ?_⟩
  rw [h]
  norm_num

/-- Witness for C4 at concrete boxes `[0,0,2,3]` (positive size) and
`[10,10,2,2]` (disjoint from the first). -/
theorem calculateIoU_bounds_witness :
    ((0 : ℚ) < boxGetD [0, 0, 2, 3] 2 ∧ (0 : ℚ) < boxGetD [0, 0, 2, 3] 3 ∧
      (min (boxGetD [0, 0, 2, 3] 0 + boxGetD [0, 0, 2, 3] 2)
          (boxGetD [10, 10, 2, 2] 0 + boxGetD [10, 10, 2, 2] 2) ≤
        max (boxGetD [0, 0, 2, 3] 0) (boxGetD [10, 10, 2, 2] 0) ∨
      min (boxGetD [0, 0, 2, 3] 1 + boxGetD [0, 0, 2, 3] 3)
          (boxGetD [10, 10, 2, 2] 1 + boxGetD [10, 10, 2, 2] 3) ≤
        max (boxGetD [0, 0, 2, 3] 1) (boxGetD [10, 10, 2, 2] 1))) ∧
    (0 ≤ calculateIoU [0, 0, 2, 3] [10, 10, 2, 2]
        (boxArea [0, 0, 2, 3]) (boxArea [10, 10, 2, 2]) ∧
      calculateIoU [0, 0, 2, 3] [10, 10, 2, 2]
        (boxArea [0, 0, 2, 3]) (boxArea [10, 10, 2, 2]) ≤ 1) ∧
    calculateIoU [0, 0, 2, 3] [0, 0, 2, 3]
      (boxArea [0, 0, 2, 3]) (boxArea [0, 0, 2, 3]) = 1 ∧
    calculateIoU [0, 0, 2, 3] [10, 10, 2, 2]
      (boxArea [0, 0, 2, 3]) (boxArea [10, 10, 2, 2]) = 0 := by
  have hb := calculateIoU_bounds [0, 0, 2, 3] [10, 10, 2, 2]
  have hd : min (boxGetD [0, 0, 2, 3] 0 + boxGetD [0, 0, 2, 3] 2)
        (boxGetD [10, 10, 2, 2] 0 + boxGetD [10, 10, 2, 2] 2) ≤
      max (boxGetD [0, 0, 2, 3] 0) (boxGetD [10, 10, 2, 2] 0) ∨
      min (boxGetD [0, 0, 2, 3] 1 + boxGetD [0, 0, 2, 3] 3)
        (boxGetD [10, 10, 2, 2] 1 + boxGetD [10, 10, 2, 2] 3) ≤
      max (boxGetD [0, 0, 2, 3] 1) (boxGetD [10, 10, 2, 2] 1) := by
    left
    norm_num [boxGetD, min_def, max_def]
  exact ⟨⟨by norm_num [boxGetD], by norm_num [boxGetD], hd⟩, hb.1,
    hb.2.1 (by norm_num [boxGetD]) (by norm_num [boxGetD]), hb.2.2 hd⟩

/-! ## Claim C5: geometry mapper clamping -/

/-- Claim C5 (amended): `convertToImageCoordinates` clamps `x1`/`y1` only
from below and `x2`/`y2` only from above; whenever the raw corner span
meets the image region on both axes (and the box has non-negative raw
size and the image non-negative dimensions), all returned corners lie in
`[0, originalWidth] × [0, originalHeight]` and the returned width and
height are non-negative.  The original claim's unconditional clamping
fails for boxes entirely outside the image, see the counterexample. -/
theorem convertToImageCoordinates_amended
    (xCenter yCenter width height : ℚ) (p : ProcessedImageData)
    (hW : 0 ≤ p.originalWidth) (hH : 0 ≤ p.originalHeight)
    (hw : 0 ≤ width) (hh : 0 ≤ height)
    (hx1 : (xCenter - width / 2) * (p.originalWidth / 640) ≤ p.originalWidth)
    (hx2 : 0 ≤ (xCenter + width / 2) * (p.originalWidth / 640))
    (hy1 : (yCenter - height / 2) * (p.originalHeight / 640) ≤
      p.originalHeight)
    (hy2 : 0 ≤ (yCenter + height / 2) * (p.originalHeight / 640)) :
    mappedBoxInBounds p
      (convertToImageCoordinates xCenter yCenter width height p) := by
  have hr : (0 : ℚ) ≤ p.originalWidth / 640 := by positivity
  have hr2 : (0 : ℚ) ≤ p.originalHeight / 640 := by positivity
  have hkx : (xCenter + width / 2) * (p.originalWidth / 640) -
      (xCenter - width / 2) * (p.originalWidth / 640) =
      width * (p.originalWidth / 640) := by ring
  have hky : (yCenter + height / 2) * (p.originalHeight / 640) -
      (yCenter - height / 2) * (p.originalHeight / 640) =
      height * (p.originalHeight / 640) := by ring
  have hx12 : (xCenter - width / 2) * (p.originalWidth / 640) ≤
      (xCenter + width / 2) * (p.originalWidth / 640) := by
    have := mul_nonneg hw hr
    linarith
  have hy12 : (yCenter - height / 2) * (p.originalHeight / 640) ≤
      (yCenter + height / 2) * (p.originalHeight / 640) := by
    have := mul_nonneg hh hr2
    linarith
  simp only [mappedBoxInBounds, convertToImageCoordinates]
  have hxm := max_le (le_min hW hx2) (le_min hx1 hx12)
  have hym := max_le (le_min hH hy2) (le_min hy1 hy12)
  have hxw := min_le_left p.originalWidth
    ((xCenter + width / 2) * (p.originalWidth / 640))
  have hyh := min_le_left p.originalHeight
    ((yCenter + height / 2) * (p.originalHeight / 640))
  refine ⟨le_max_left _ _, max_le hW hx1, le_max_left _ _, max_le hH hy1,
    ?_, ?_, ?_, ?_⟩
  · linarith
  · linarith
  · linarith
  · linarith

/-- Claim C5 counterexample: a 10×10 box centered at `x = 1000` lies fully
to the right of a 640-wide image; the mapper returns corner `x = 995`
(outside `[0, 640]`) and width `-355 < 0`. -/
theorem convertToImageCoordinates_cex :
    (convertToImageCoordinates 1000 320 10 10 ctx640).w < 0 ∧
    ¬((convertToImageCoordinates 1000 320 10 10 ctx640).x ≤
        ctx640.originalWidth) := by
  norm_num [convertToImageCoordinates, ctx640, min_def, max_def]

/-- Witness for C5 at a 100×100 box centered in a 640×640 image. -/
theorem convertToImageCoordinates_amended_witness :
    ((0 : ℚ) ≤ ctx640.originalWidth ∧ (0 : ℚ) ≤ ctx640.originalHeight ∧
      (0 : ℚ) ≤ 100 ∧
      ((320 : ℚ) - 100 / 2) * (ctx640.originalWidth / 640) ≤
        ctx640.originalWidth ∧
      0 ≤ ((320 : ℚ) + 100 / 2) * (ctx640.originalWidth / 640)) ∧
    mappedBoxInBounds ctx640
      (convertToImageCoordinates 320 320 100 100 ctx640) := by
  refine ⟨⟨by norm_num [ctx640], by norm_num [ctx640], by norm_num,
    by norm_num [ctx640], by norm_num [ctx640]⟩, ?_⟩
  exact convertToImageCoordinates_amended 320 320 100 100 ctx640
    (by norm_num [ctx640]) (by norm_num [ctx640]) (by norm_num)
    (by norm_num) (by norm_num [ctx640]) (by norm_num [ctx640])
    (by norm_num [ctx640]) (by norm_num [ctx640])

/-! ## Lemmas about the best-class scan -/

theorem bestClass_succ (f : Nat → ℚ) (n : Nat) :
    bestClass f (n + 1) = bestClassStep f (bestClass f n) n := by
  rw [bestClass, bestClass, List.range_succ, List.foldl_append]
  rfl

theorem bestClass_fst_nonneg (f : Nat → ℚ) (n : Nat) :
    0 ≤ (bestClass f n).1 := by
  induction n with
  | zero => exact le_refl 0
  | succ n ih =>
    rw [bestClass_succ, bestClassStep]
    split
    · rename_i h
      exact le_of_lt (lt_of_le_of_lt ih h)
    · exact ih

theorem bestClass_fst_ge (f : Nat → ℚ) (n : Nat) :
    ∀ j, j < n → f j ≤ (bestClass f n).1 := by
  induction n with
  | zero => exact fun j hj => absurd hj (Nat.not_lt_zero j)
  | succ n ih =>
    intro j hj
    rw [bestClass_succ, bestClassStep]
    by_cases h : (bestClass f n).1 < f n
    · rw [if_pos h]
      rcases Nat.lt_succ_iff_lt_or_eq.mp hj with hj2 | rfl
      · exact le_trans (ih j hj2) (le_of_lt h)
      · exact le_refl (f j)
    · rw [if_neg h]
      rcases Nat.lt_succ_iff_lt_or_eq.mp hj with hj2 | rfl
      · exact ih j hj2
      · exact le_of_not_lt h

theorem bestClass_spec (f : Nat → ℚ) (n : Nat)
    (hpos : 0 < (bestClass f n).1) :
    (bestClass f n).2 < n ∧ f (bestClass f n).2 = (bestClass f n).1 ∧
    ∀ j, j < (bestClass f n).2 → f j < (bestClass f n).1 := by
  induction n with
  | zero => exact absurd hpos (lt_irrefl 0)
  | succ n ih =>
    rw [bestClass_succ, bestClassStep] at hpos ⊢
    by_cases h : (bestClass f n).1 < f n
    · rw [if_pos h] at hpos ⊢
      refine ⟨Nat.lt_succ_self n, rfl, ?_⟩
      intro j hj
      exact lt_of_le_of_lt (bestClass_fst_ge f n j hj) h
    · rw [if_neg h] at hpos ⊢
      obtain ⟨h1, h2, h3⟩ := ih hpos
      exact ⟨Nat.lt_succ_of_lt h1, h2, h3⟩

theorem bestClass_congr (f g : Nat → ℚ) (n : Nat)
    (h : ∀ j, j < n → f j = g j) : bestClass f n = bestClass g n := by
  induction n with
  | zero => rfl
  | succ n ih =>
    rw [bestClass_succ, bestClass_succ,
      ih (fun j hj => h j (Nat.lt_succ_of_lt hj)), bestClassStep,
      bestClassStep, h n (Nat.lt_succ_self n)]

theorem bestClass_of_nonpos (f : Nat → ℚ) (n : Nat)
    (h : ∀ j, j < n → f j ≤ 0) : bestClass f n = (0, 0) := by
  induction n with
  | zero => rfl
  | succ n ih =>
    rw [bestClass_succ, ih (fun j hj => h j (Nat.lt_succ_of_lt hj)),
      bestClassStep]
    exact if_neg (not_lt.mpr (h n (Nat.lt_succ_self n)))

/-! ## Reads of the concrete scenario tensors -/

theorem tensorRead_range_map (f : Nat → ℚ) (n k : Nat) :
    tensorRead ((List.range n).map f) k = if k < n then f k else 0 := by
  rw [tensorRead, List.getD_eq_getElem?_getD, List.getElem?_map]
  by_cases h : k < n
  · rw [List.getElem?_range h]
    simp [h]
  · rw [List.getElem?_eq_none (by simpa [List.length_range] using h)]
    simp [h]

theorem t0_read (k : Nat) : tensorRead t0 k = f0 k := by
  rw [t0, tensorRead_range_map]
  split
  · rfl
  · rename_i h
    simp only [f0]
    rw [if_neg (by omega), if_neg (by omega), if_neg (by omega),
      if_neg (by omega), if_neg (by omega)]

theorem tC9_read (k : Nat) :
    tensorRead tC9 k = if k = 33600 then mkRat 9 10 else 0 := by
  rw [tC9, tensorRead_range_map]
  split
  · rfl
  · rename_i h
    rw [if_neg (by omega)]

theorem tNeg_read (k : Nat) :
    tensorRead tNeg k = if k < 705600 then -1 else 0 := by
  rw [tNeg, tensorRead, List.getD_eq_getElem?_getD, List.getElem?_replicate]
  split <;> simp

/-! ## Claim C6: class selection by strict left-to-right scan -/

theorem tNeg_classScore (j : Nat) (hj : j < NUM_CLASSES) :
    classScore tNeg 0 j = -1 := by
  rw [classScore, tNeg_read, if_pos]
  simp only [NUM_CLASSES] at hj
  simp only [NUM_DETECTIONS]
  omega

/-- Claim C6 (amended): at any anchor where at least one class score is
strictly positive, the strict-`>` left-to-right scan reports exactly the
maximal class score, attained at the lowest channel index attaining it.
The original claim fails when every class score is non-positive (then the
scan's zero initialisation wins), see the counterexample. -/
theorem bestClass_scan_correct (t : Tensor) (i : Nat)
    (hpos : ∃ j, j < NUM_CLASSES ∧ 0 < classScore t i j) :
    bestClassCorrect t i := by
  obtain ⟨j0, hj0, hpos0⟩ := hpos
  have hge := bestClass_fst_ge (classScore t i) NUM_CLASSES
  have h1 : 0 < (bestClass (classScore t i) NUM_CLASSES).1 :=
    lt_of_lt_of_le hpos0 (hge j0 hj0)
  obtain ⟨ha, hb, hc⟩ := bestClass_spec _ _ h1
  exact ⟨hge, ha, hb, hc⟩

/-- Claim C6 counterexample: on the all-`-1` tensor the scan reports score
`0` and class `0`, but no class score equals `0` (the maximal class score
is `-1`), so the claim "the reported score is the maximal class score" is
false at anchor 0. -/
theorem bestClass_scan_cex : ¬ bestClassCorrect tNeg 0 := by
  intro h
  obtain ⟨-, -, hc, -⟩ := h
  have hbc : bestClass (classScore tNeg 0) NUM_CLASSES = (0, 0) :=
    bestClass_of_nonpos _ _ fun j hj => by
      rw [tNeg_classScore j (by simpa [NUM_CLASSES] using hj)]
      norm_num
  rw [hbc] at hc
  rw [tNeg_classScore 0 (by norm_num [NUM_CLASSES])] at hc
  norm_num at hc

/-! ## Claim C7: graceful decode of malformed tensors -/

theorem tensorRead_zeroPad (t : Tensor) (k : Nat) (hk : k < 84 * 8400) :
    tensorRead (zeroPadDetection t) k = tensorRead t k := by
  rw [zeroPadDetection, tensorRead, tensorRead, List.getD_eq_getElem?_getD,
    List.getD_eq_getElem?_getD, List.getElem?_append]
  by_cases h : k < t.length
  · rw [if_pos h]
  · rw [if_neg h, List.getElem?_replicate,
      List.getElem?_eq_none (by omega)]
    split <;> rfl

theorem classScore_index_lt (i j : Nat) (hi : i < NUM_DETECTIONS)
    (hj : j < NUM_CLASSES) :
    (4 + j) * NUM_DETECTIONS + i < 84 * 8400 := by
  simp only [NUM_DETECTIONS, NUM_CLASSES] at *
  omega

theorem decodeAnchor_congr (t t2 : Tensor) (ctx : ProcessedImageData)
    (thr : ℚ) (i : Nat)
    (h : ∀ k, k < 84 * 8400 → tensorRead t2 k = tensorRead t k)
    (hi : i < NUM_DETECTIONS) :
    decodeAnchor t2 ctx thr i = decodeAnchor t ctx thr i := by
  have hi8 : i < 8400 := by simpa [NUM_DETECTIONS] using hi
  have hcs : bestClass (classScore t2 i) NUM_CLASSES =
      bestClass (classScore t i) NUM_CLASSES :=
    bestClass_congr _ _ _ fun j hj => by
      rw [classScore, classScore, h _ (classScore_index_lt i j hi
        (by simpa [NUM_CLASSES] using hj))]
  simp only [decodeAnchor, hcs,
    h (0 * NUM_DETECTIONS + i) (by simp only [NUM_DETECTIONS]; omega),
    h (1 * NUM_DETECTIONS + i) (by simp only [NUM_DETECTIONS]; omega),
    h (2 * NUM_DETECTIONS + i) (by simp only [NUM_DETECTIONS]; omega),
    h (3 * NUM_DETECTIONS + i) (by simp only [NUM_DETECTIONS]; omega)]

/-- Claim C7: decoding is total for tensors of any length (out-of-range
reads behave as `0`), and the result of `processDetections` on any tensor
equals its result on the tensor zero-padded to the full `84 * 8400`
detection size. -/
theorem processDetections_malformed_tensor (t : Tensor)
    (ctx : ProcessedImageData) (opts : PostProcessOptions) :
    processDetections (zeroPadDetection t) ctx opts =
      processDetections t ctx opts := by
  simp only [processDetections]
  rw [List.filterMap_congr fun i hi =>
    decodeAnchor_congr t (zeroPadDetection t) ctx opts.confidenceThreshold i
      (fun k hk => tensorRead_zeroPad t k hk) (List.mem_range.mp hi)]

/-! ## Claim C8: no options validation in the assemblers -/

theorem decodeAnchor_nil (ctx : ProcessedImageData) (thr : ℚ) (i : Nat) :
    decodeAnchor [] ctx thr i = none := by
  have hb : bestClass (classScore [] i) NUM_CLASSES = (0, 0) :=
    bestClass_of_nonpos _ _ fun j _ => by
      rw [classScore, tensorRead, List.getD_nil]
  simp only [decodeAnchor, hb, tensorRead, List.getD_nil]
  split
  · rfl
  · rw [if_pos (Or.inl le_rfl)]

theorem processDetections_nil (ctx : ProcessedImageData)
    (opts : PostProcessOptions) : processDetections [] ctx opts = [] := by
  simp only [processDetections]
  rw [List.filterMap_eq_nil_iff.mpr fun i _ =>
    decodeAnchor_nil ctx opts.confidenceThreshold i]
  rw [show ([] : List DetCand).map candBox = [] from rfl,
    show ([] : List DetCand).map DetCand.score = [] from rfl,
    nms_nil_eval]
  simp

/-- Claim C8 (amended): the assemblers perform no options validation at
all: `modelType` is never consulted (changing it never changes any
assembler's output), and non-positive thresholds are accepted — the call
returns an ordinary result list (here: the empty list on the empty
tensor) instead of failing. -/
theorem assemblers_no_validation :
    (∀ (t tm : Tensor) (ctx : ProcessedImageData) (c i : ℚ) (m : Nat)
      (s : List Nat) (mt mt2 : ModelType),
      processDetections t ctx ⟨c, i, m, s, mt⟩ =
        processDetections t ctx ⟨c, i, m, s, mt2⟩ ∧
      processSegmentations t tm ctx ⟨c, i, m, s, mt⟩ =
        processSegmentations t tm ctx ⟨c, i, m, s, mt2⟩ ∧
      processPoses t ctx ⟨c, i, m, s, mt⟩ =
        processPoses t ctx ⟨c, i, m, s, mt2⟩) ∧
    (∀ (ctx : ProcessedImageData) (opts : PostProcessOptions),
      processDetections [] ctx opts = []) :=
  ⟨fun _ _ _ _ _ _ _ _ _ => ⟨rfl, rfl, rfl⟩, processDetections_nil⟩

/-- Claim C8 counterexample: with non-positive thresholds
(`confidenceThreshold = iouThreshold = -1`) `processDetections` does not
fail: it returns a normal (empty) result sequence. -/
theorem config_error_no_failure_cex :
    processDetections [] ctx640 optsNeg = [] :=
  processDetections_nil ctx640 optsNeg

/-! ## Decoding the concrete scenario tensors -/

theorem filterMap_range_single {α : Type} (f : Nat → Option α) (n : Nat)
    (c : α) (h0 : f 0 = some c)
    (h : ∀ i, 0 < i → i < n → f i = none) (hn : 0 < n) :
    (List.range n).filterMap f = [c] := by
  obtain ⟨m, rfl⟩ : ∃ m, n = m + 1 := ⟨n - 1, by omega⟩
  rw [List.range_succ_eq_map, List.filterMap_cons_some h0,
    List.filterMap_map]
  have h2 : List.filterMap (f ∘ Nat.succ) (List.range m) = [] :=
    List.filterMap_eq_nil_iff.mpr fun a ha =>
      h (a + 1) (Nat.succ_pos a) (by
        have := List.mem_range.mp ha
        omega)
  rw [h2]

theorem t0_classScore_ne (i j : Nat) (hi0 : 0 < i) (hi : i < 8400)
    (hj : j < 80) : classScore t0 i j = 0 := by
  rw [classScore, t0_read]
  simp only [NUM_DETECTIONS, f0]
  rw [if_neg (by omega), if_neg (by omega), if_neg (by omega),
    if_neg (by omega), if_neg (by omega)]

theorem t0_decode_ne (ctx : ProcessedImageData) (i : Nat) (hi0 : 0 < i)
    (hi : i < 8400) : decodeAnchor t0 ctx (mkRat 1 2) i = none := by
  have hb : bestClass (classScore t0 i) NUM_CLASSES = (0, 0) :=
    bestClass_of_nonpos _ _ fun j hj => le_of_eq
      (t0_classScore_ne i j hi0 hi (by simpa [NUM_CLASSES] using hj))
  simp only [decodeAnchor, hb]
  rw [if_pos (by decide : (0 : ℚ) < mkRat 1 2)]

theorem t0_classScore_0 (j : Nat) (hj : j < 80) :
    classScore t0 0 j = if j = 0 then mkRat 9 10 else 0 := by
  rw [classScore, t0_read]
  by_cases h : j = 0
  · subst h
    norm_num [NUM_DETECTIONS, f0]
  · rw [if_neg h]
    simp only [NUM_DETECTIONS, f0]
    rw [if_neg (by omega), if_neg (by omega), if_neg (by omega),
      if_neg (by omega), if_neg (by omega)]

set_option maxRecDepth 4000 in
theorem t0_bestClass :
    bestClass (classScore t0 0) NUM_CLASSES = (mkRat 9 10, 0) := by
  rw [bestClass_congr (classScore t0 0)
    (fun j => if j = 0 then mkRat 9 10 else 0) NUM_CLASSES
    (fun j hj => t0_classScore_0 j (by simpa [NUM_CLASSES] using hj))]
  decide

theorem convert_t0 :
    convertToImageCoordinates 320 320 100 100 ctx640 =
      ⟨270, 270, 100, 100⟩ := by
  norm_num [convertToImageCoordinates, ctx640, min_def, max_def]

theorem t0_decode_0 :
    decodeAnchor t0 ctx640 (mkRat 1 2) 0 =
      some ⟨270, 270, 100, 100, mkRat 9 10, 0⟩ := by
  have h0 : tensorRead t0 (0 * NUM_DETECTIONS + 0) = 320 := by
    rw [t0_read]; norm_num [NUM_DETECTIONS, f0]
  have h1 : tensorRead t0 (1 * NUM_DETECTIONS + 0) = 320 := by
    rw [t0_read]; norm_num [NUM_DETECTIONS, f0]
  have h2 : tensorRead t0 (2 * NUM_DETECTIONS + 0) = 100 := by
    rw [t0_read]; norm_num [NUM_DETECTIONS, f0]
  have h3 : tensorRead t0 (3 * NUM_DETECTIONS + 0) = 100 := by
    rw [t0_read]; norm_num [NUM_DETECTIONS, f0]
  simp only [decodeAnchor, t0_bestClass, h0, h1, h2, h3, convert_t0]
  rw [if_neg (by decide : ¬(mkRat 9 10 < mkRat 1 2)),
    if_neg (by norm_num : ¬((100 : ℚ) ≤ 0 ∨ (100 : ℚ) ≤ 0)),
    if_neg (by norm_num : ¬((100 : ℚ) < 20 ∨ (100 : ℚ) < 20))]

theorem detCands_t0 :
    (List.range NUM_DETECTIONS).filterMap
      (decodeAnchor t0 ctx640 (mkRat 1 2)) =
      [⟨270, 270, 100, 100, mkRat 9 10, 0⟩] :=
  filterMap_range_single _ _ _ t0_decode_0
    (fun i h0 hi => t0_decode_ne ctx640 i h0
      (by simpa [NUM_DETECTIONS] using hi))
    (by norm_num [NUM_DETECTIONS])

theorem processDetections_t0 : processDetections t0 ctx640 opts0 = [det0] := by
  simp only [processDetections, opts0]
  rw [detCands_t0]
  rw [show [(⟨270, 270, 100, 100, mkRat 9 10, 0⟩ : DetCand)].map candBox =
      [[270, 270, 100, 100]] from rfl,
    show [(⟨270, 270, 100, 100, mkRat 9 10, 0⟩ : DetCand)].map
      DetCand.score = [mkRat 9 10] from rfl,
    nms_singleton_eval]
  rfl

/-! ## Claim C9: the single-unambiguous-detection scenario -/

theorem tC9_classScore_ne (i j : Nat) (hi0 : 0 < i) (hi : i < 8400)
    (hj : j < 80) : classScore tC9 i j = 0 := by
  rw [classScore, tC9_read]
  simp only [NUM_DETECTIONS]
  rw [if_neg (by omega)]

theorem tC9_decode_ne (i : Nat) (hi0 : 0 < i) (hi : i < 8400) :
    decodeAnchor tC9 ctx640 (mkRat 1 2) i = none := by
  have hb : bestClass (classScore tC9 i) NUM_CLASSES = (0, 0) :=
    bestClass_of_nonpos _ _ fun j hj => le_of_eq
      (tC9_classScore_ne i j hi0 hi (by simpa [NUM_CLASSES] using hj))
  simp only [decodeAnchor, hb]
  rw [if_pos (by decide : (0 : ℚ) < mkRat 1 2)]

theorem tC9_classScore_0 (j : Nat) (hj : j < 80) :
    classScore tC9 0 j = if j = 0 then mkRat 9 10 else 0 := by
  rw [classScore, tC9_read]
  simp only [NUM_DETECTIONS]
  by_cases h : j = 0
  · subst h
    norm_num
  · rw [if_neg (by omega), if_neg h]

set_option maxRecDepth 4000 in
theorem tC9_decode_0 : decodeAnchor tC9 ctx640 (mkRat 1 2) 0 = none := by
  have hb : bestClass (classScore tC9 0) NUM_CLASSES = (mkRat 9 10, 0) := by
    rw [bestClass_congr (classScore tC9 0)
      (fun j => if j = 0 then mkRat 9 10 else 0) NUM_CLASSES
      (fun j hj => tC9_classScore_0 j (by simpa [NUM_CLASSES] using hj))]
    decide
  have h2 : tensorRead tC9 (2 * NUM_DETECTIONS + 0) = 0 := by
    rw [tC9_read]
    norm_num [NUM_DETECTIONS]
  simp only [decodeAnchor, hb, h2]
  rw [if_neg (by decide : ¬(mkRat 9 10 < mkRat 1 2)),
    if_pos (Or.inl le_rfl)]

/-- Claim C9 counterexample: on the claimed scenario tensor — exactly one
anchor with class-0 score `0.9` (= `mkRat 9 10`) and every other tensor
value `0`, `confidenceThreshold = 0.5` — `processDetections` returns the
empty list, not one Detection: the anchor's raw box width/height are `0`
and the `width <= 0 || height <= 0` filter drops it. -/
theorem single_detection_scenario_cex :
    processDetections tC9 ctx640 opts0 = [] := by
  simp only [processDetections, opts0]
  have hnil : (List.range NUM_DETECTIONS).filterMap
      (decodeAnchor tC9 ctx640 (mkRat 1 2)) = [] :=
    List.filterMap_eq_nil_iff.mpr fun i hi => by
      rcases Nat.eq_zero_or_pos i with rfl | hpos
      · exact tC9_decode_0
      · exact tC9_decode_ne i hpos
          (by simpa [NUM_DETECTIONS] using List.mem_range.mp hi)
  rw [hnil]
  rw [show ([] : List DetCand).map candBox = [] from rfl,
    show ([] : List DetCand).map DetCand.score = [] from rfl,
    nms_nil_eval]
  simp

/-- Claim C9 (amended): the scenario yields exactly one Detection with
class 0 (`"person"`) and score `0.9` once the single positive anchor also
carries a decodable box (here `(cx, cy, w, h) = (320, 320, 100, 100)`,
which maps to a 100×100 box, passing the size filters); with a zero-size
box the output is empty (see the counterexample). -/
theorem single_detection_scenario_amended :
    processDetections t0 ctx640 opts0 =
      [⟨⟨270, 270, 100, 100⟩, mkRat 9 10, "person", 0⟩] :=
  processDetections_t0

/-! ## Claim C3: decode-filter invariants of emitted detections -/

set_option maxRecDepth 8000 in
theorem decodeAnchor_some_props (t : Tensor) (ctx : ProcessedImageData)
    (thr : ℚ) (i : Nat) (c : DetCand)
    (h : decodeAnchor t ctx thr i = some c) :
    thr ≤ c.score ∧ 20 ≤ c.w ∧ 20 ≤ c.h ∧
    0 < tensorRead t (2 * NUM_DETECTIONS + i) ∧
    0 < tensorRead t (3 * NUM_DETECTIONS + i) := by
  simp only [decodeAnchor] at h
  split at h
  · exact absurd h (by simp)
  · split at h
    · exact absurd h (by simp)
    · split at h
      · exact absurd h (by simp)
      · rename_i h1 h2 h3
        push_neg at h1 h2 h3
        rw [Option.some.injEq] at h
        subst h
        exact ⟨h1, h3.1, h3.2, h2.1, h2.2⟩

/-- Claim C3: every Detection returned by `processDetections` has mapped
width and height at least 20 pixels, score at least the confidence
threshold, and stems from an anchor whose raw (pre-mapping) width and
height are strictly positive. -/
theorem processDetections_filters (t : Tensor) (ctx : ProcessedImageData)
    (opts : PostProcessOptions) (d : Detection)
    (hd : d ∈ processDetections t ctx opts) : detInvariant t ctx opts d := by
  simp only [processDetections] at hd
  obtain ⟨idx, hidx, hf⟩ := List.mem_filterMap.mp hd
  obtain ⟨c, hc, rfl⟩ := Option.map_eq_some'.mp hf
  have hcm : c ∈ (List.range NUM_DETECTIONS).filterMap
      (decodeAnchor t ctx opts.confidenceThreshold) :=
    List.get?_mem ((List.get?_eq_getElem? _ _).trans hc)
  obtain ⟨i, hi, hdec⟩ := List.mem_filterMap.mp hcm
  obtain ⟨hsc, hw, hh, hrw, hrh⟩ :=
    decodeAnchor_some_props t ctx opts.confidenceThreshold i c hdec
  exact ⟨hw, hh, hsc, i, List.mem_range.mp hi, hrw, hrh, hdec⟩

/-- Witness for C3 at the concrete scenario tensor. -/
theorem processDetections_filters_witness :
    det0 ∈ processDetections t0 ctx640 opts0 ∧
    detInvariant t0 ctx640 opts0 det0 := by
  have hm : det0 ∈ processDetections t0 ctx640 opts0 := by
    rw [processDetections_t0]
    exact List.mem_singleton_self det0
  exact ⟨hm, processDetections_filters t0 ctx640 opts0 det0 hm⟩

/-! ## Claim C10: pose keypoint invariants -/

theorem map_congr_mem {α β : Type} (l : List α) (f g : α → β)
    (h : ∀ a ∈ l, f a = g a) : l.map f = l.map g := by
  induction l with
  | nil => rfl
  | cons x xs ih =>
    simp only [List.map_cons, h x (List.mem_cons_self x xs),
      ih fun a ha => h a (List.mem_cons_of_mem x ha)]

theorem t0_decodePose_ne (i : Nat) (hi0 : 0 < i) (hi : i < 8400) :
    decodePoseAnchor t0 ctx640 (mkRat 1 2) i = none := by
  have hconf : tensorRead t0 (4 * NUM_DETECTIONS + i) = 0 := by
    rw [t0_read]
    simp only [NUM_DETECTIONS, f0]
    rw [if_neg (by omega), if_neg (by omega), if_neg (by omega),
      if_neg (by omega), if_neg (by omega)]
  simp only [decodePoseAnchor, hconf]
  rw [if_pos (by decide : (0 : ℚ) < mkRat 1 2)]

theorem t0_kp (j : Nat) :
    poseKeypoint t0 ctx640 0 j =
      ⟨0, 0, 0, POSE_KEYPOINTS.getD j ("keypoint_" ++ toString j)⟩ := by
  have hx : tensorRead t0 ((5 + j * 3) * NUM_DETECTIONS + 0) = 0 := by
    rw [t0_read]
    simp only [NUM_DETECTIONS, f0]
    rw [if_neg (by omega), if_neg (by omega), if_neg (by omega),
      if_neg (by omega), if_neg (by omega)]
  have hy : tensorRead t0 ((5 + j * 3 + 1) * NUM_DETECTIONS + 0) = 0 := by
    rw [t0_read]
    simp only [NUM_DETECTIONS, f0]
    rw [if_neg (by omega), if_neg (by omega), if_neg (by omega),
      if_neg (by omega), if_neg (by omega)]
  have hc : tensorRead t0 ((5 + j * 3 + 2) * NUM_DETECTIONS + 0) = 0 := by
    rw [t0_read]
    simp only [NUM_DETECTIONS, f0]
    rw [if_neg (by omega), if_neg (by omega), if_neg (by omega),
      if_neg (by omega), if_neg (by omega)]
  simp only [poseKeypoint, hx, hy, hc]
  norm_num [ctx640, min_def, max_def]

theorem t0_decodePose_0 :
    decodePoseAnchor t0 ctx640 (mkRat 1 2) 0 =
      some ⟨270, 270, 100, 100, mkRat 9 10, kps0⟩ := by
  have h0 : tensorRead t0 (0 * NUM_DETECTIONS + 0) = 320 := by
    rw [t0_read]; norm_num [NUM_DETECTIONS, f0]
  have h1 : tensorRead t0 (1 * NUM_DETECTIONS + 0) = 320 := by
    rw [t0_read]; norm_num [NUM_DETECTIONS, f0]
  have h2 : tensorRead t0 (2 * NUM_DETECTIONS + 0) = 100 := by
    rw [t0_read]; norm_num [NUM_DETECTIONS, f0]
  have h3 : tensorRead t0 (3 * NUM_DETECTIONS + 0) = 100 := by
    rw [t0_read]; norm_num [NUM_DETECTIONS, f0]
  have hconf : tensorRead t0 (4 * NUM_DETECTIONS + 0) = mkRat 9 10 := by
    rw [t0_read]; norm_num [NUM_DETECTIONS, f0]
  have hkps : (List.range 17).map (poseKeypoint t0 ctx640 0) = kps0 := by
    rw [kps0]
    exact map_congr_mem _ _ _ fun j _ => t0_kp j
  simp only [decodePoseAnchor, h0, h1, h2, h3, hconf, hkps, convert_t0]
  rw [if_neg (by decide : ¬(mkRat 9 10 < mkRat 1 2)),
    if_neg (by norm_num : ¬((100 : ℚ) ≤ 0 ∨ (100 : ℚ) ≤ 0)),
    if_neg (by norm_num : ¬((100 : ℚ) < 20 ∨ (100 : ℚ) < 20))]

theorem poseCands_t0 :
    (List.range NUM_DETECTIONS).filterMap
      (decodePoseAnchor t0 ctx640 (mkRat 1 2)) =
      [⟨270, 270, 100, 100, mkRat 9 10, kps0⟩] :=
  filterMap_range_single _ _ _ t0_decodePose_0
    (fun i h0 hi => t0_decodePose_ne i h0
      (by simpa [NUM_DETECTIONS] using hi))
    (by norm_num [NUM_DETECTIONS])

theorem processPoses_t0 : processPoses t0 ctx640 opts0 = [pose0] := by
  simp only [processPoses, opts0]
  rw [poseCands_t0]
  rw [show [(⟨270, 270, 100, 100, mkRat 9 10, kps0⟩ : PoseCand)].map
      poseCandBox = [[270, 270, 100, 100]] from rfl,
    show [(⟨270, 270, 100, 100, mkRat 9 10, kps0⟩ : PoseCand)].map
      PoseCand.score = [mkRat 9 10] from rfl,
    nms_singleton_eval]
  rfl

set_option maxRecDepth 8000 in
theorem decodePoseAnchor_some_keypoints (t : Tensor)
    (ctx : ProcessedImageData) (thr : ℚ) (i : Nat) (c : PoseCand)
    (h : decodePoseAnchor t ctx thr i = some c) :
    c.keypoints = (List.range 17).map (poseKeypoint t ctx i) := by
  simp only [decodePoseAnchor] at h
  split at h
  · exact absurd h (by simp)
  · split at h
    · exact absurd h (by simp)
    · split at h
      · exact absurd h (by simp)
      · rw [Option.some.injEq] at h
        subst h
        rfl

theorem poseKeypoint_bounds (t : Tensor) (ctx : ProcessedImageData)
    (i j : Nat) (hW : 0 ≤ ctx.originalWidth) (hH : 0 ≤ ctx.originalHeight) :
    0 ≤ (poseKeypoint t ctx i j).x ∧
    (poseKeypoint t ctx i j).x ≤ ctx.originalWidth ∧
    0 ≤ (poseKeypoint t ctx i j).y ∧
    (poseKeypoint t ctx i j).y ≤ ctx.originalHeight := by
  simp only [poseKeypoint]
  exact ⟨le_max_left _ _, max_le hW (min_le_left _ _),
    le_max_left _ _, max_le hH (min_le_left _ _)⟩

theorem poseKeypoint_names (t : Tensor) (ctx : ProcessedImageData)
    (i : Nat) :
    ((List.range 17).map (poseKeypoint t ctx i)).map Keypoint.name =
      POSE_KEYPOINTS := by
  rw [List.map_map]
  have h1 : List.map (Keypoint.name ∘ poseKeypoint t ctx i)
      (List.range 17) =
      List.map (fun j => POSE_KEYPOINTS.getD j ("keypoint_" ++ toString j))
        (List.range 17) :=
    map_congr_mem (List.range 17) (Keypoint.name ∘ poseKeypoint t ctx i)
      (fun j => POSE_KEYPOINTS.getD j ("keypoint_" ++ toString j))
      (fun j _ => rfl)
  rw [h1]
  decide

/-- Claim C10: every Pose returned by `processPoses` carries exactly 17
keypoints named by the fixed skeleton vocabulary in order, and every
keypoint coordinate is clamped into
`[0, originalWidth] × [0, originalHeight]` (for a geometry context with
non-negative image dimensions). -/
theorem processPoses_keypoint_invariant (t : Tensor)
    (ctx : ProcessedImageData) (opts : PostProcessOptions)
    (hW : 0 ≤ ctx.originalWidth) (hH : 0 ≤ ctx.originalHeight) (p : Pose)
    (hp : p ∈ processPoses t ctx opts) : poseInvariant ctx p := by
  simp only [processPoses] at hp
  obtain ⟨idx, hidx, hf⟩ := List.mem_filterMap.mp hp
  obtain ⟨c, hc, rfl⟩ := Option.map_eq_some'.mp hf
  have hcm : c ∈ (List.range NUM_DETECTIONS).filterMap
      (decodePoseAnchor t ctx opts.confidenceThreshold) :=
    List.get?_mem ((List.get?_eq_getElem? _ _).trans hc)
  obtain ⟨i, hi, hdec⟩ := List.mem_filterMap.mp hcm
  have hk := decodePoseAnchor_some_keypoints t ctx
    opts.confidenceThreshold i c hdec
  simp only [poseInvariant]
  refine ⟨?_, ?_, ?_⟩
  · show c.keypoints.length = 17
    rw [hk, List.length_map, List.length_range]
  · show c.keypoints.map Keypoint.name = POSE_KEYPOINTS
    rw [hk]
    exact poseKeypoint_names t ctx i
  · intro k hkm
    replace hkm : k ∈ c.keypoints := hkm
    rw [hk] at hkm
    obtain ⟨j, hj, rfl⟩ := List.mem_map.mp hkm
    exact poseKeypoint_bounds t ctx i j hW hH

/-- Witness for C10 at the concrete scenario tensor. -/
theorem processPoses_keypoint_invariant_witness :
    ((0 : ℚ) ≤ ctx640.originalWidth ∧ (0 : ℚ) ≤ ctx640.originalHeight ∧
      pose0 ∈ processPoses t0 ctx640 opts0) ∧
    poseInvariant ctx640 pose0 := by
  have hm : pose0 ∈ processPoses t0 ctx640 opts0 := by
    rw [processPoses_t0]
    exact List.mem_singleton_self pose0
  exact ⟨⟨by norm_num [ctx640], by norm_num [ctx640], hm⟩,
    processPoses_keypoint_invariant t0 ctx640 opts0
      (by norm_num [ctx640]) (by norm_num [ctx640]) pose0 hm⟩

/-- Witness for C6 at the concrete scenario tensor (anchor 0 has the
positive class-0 score `0.9`). -/
theorem bestClass_scan_correct_witness :
    (∃ j, j < NUM_CLASSES ∧ 0 < classScore t0 0 j) ∧ bestClassCorrect t0 0 := by
  have hx : classScore t0 0 0 = mkRat 9 10 := by
    rw [classScore, t0_read]
    norm_num [NUM_DETECTIONS, f0]
  have hpos : ∃ j, j < NUM_CLASSES ∧ 0 < classScore t0 0 j :=
    ⟨0, by norm_num [NUM_CLASSES], by rw [hx]; decide⟩
  exact ⟨hpos, bestClass_scan_correct t0 0 hpos⟩
